import Mathlib

/-!
Verification of the resource-graph extraction core of a Terraform-to-diagram
service. The embedding follows `src/diagram-service.py`: parsed HCL values are
modelled by the inductive `HV` (Python dicts become ordered association lists),
diagnostic prints become values of `Diag`, and code paths that raise Python
exceptions (attribute errors on non-dict values, unhashable membership tests)
are modelled with `Except`.
-/

/-- Values of the parsed Terraform document, mirroring the Python values the
service traverses: strings, integers, booleans, lists and (ordered) dicts. -/
inductive HV where
  | str : String → HV
  | num : Int → HV
  | bool : Bool → HV
  | list : List HV → HV
  | dict : List (String × HV) → HV

/-- Diagnostics, one constructor per `print` warning in the source. -/
inductive Diag where
  | noMapping (resourceType resourceId : String)
  | instancesNotDict (resourceType : String) (got : HV)
  | blockNotDict (got : HV)
  | unexpectedResourceStructure (got : HV)
  | depNotFound (dep : HV) (resourceId : String)
  | dependsOnNotList (resourceId : String)

/-- Resource record stored in the `resources` dict by `extract_resources`;
the Python node class object is represented by its class name. -/
structure ResourceRecord where
  type : String
  name : String
  config : HV
  node_class : String
  cluster : String

abbrev Resources := List (String × ResourceRecord)

/-- Lookup in an ordered association list (Python `d[k]` / `k in d`). -/
def alistGet : List (String × α) → String → Option α
  | [], _ => none
  | (k0, v0) :: rest, k => if k0 = k then some v0 else alistGet rest k

/-- Insertion into an ordered association list with Python dict semantics:
an existing key keeps its position and gets the new value, a new key is
appended at the end. -/
def insertA : List (String × α) → String → α → List (String × α)
  | [], k, v => [(k, v)]
  | (k0, v0) :: rest, k, v =>
    if k0 = k then (k0, v) :: rest else (k0, v0) :: insertA rest k v

/-- RESOURCE_MAP from the source: Terraform type ↦ (node class name, category). -/
def RESOURCE_MAP : List (String × String × String) := [
  ("aws_instance", "EC2", "Compute"),
  ("aws_lambda_function", "Lambda", "Compute"),
  ("aws_ecs_cluster", "ECS", "Compute"),
  ("aws_autoscaling_group", "AutoScaling", "Compute"),
  ("aws_ecr_repository", "ECR", "Containers"),
  ("aws_db_instance", "RDS", "Database"),
  ("aws_dynamodb_table", "Dynamodb", "Database"),
  ("aws_redshift_cluster", "Redshift", "Database"),
  ("aws_elasticache_cluster", "ElastiCache", "Database"),
  ("aws_elb", "ELB", "Network"),
  ("aws_alb", "ALB", "Network"),
  ("aws_vpc", "VPC", "Network"),
  ("aws_cloudfront_distribution", "CloudFront", "Content Delivery"),
  ("aws_route53_zone", "Route53", "Network"),
  ("aws_s3_bucket", "S3", "Storage"),
  ("aws_efs_file_system", "EFS", "Storage"),
  ("aws_sqs_queue", "SQS", "Integration"),
  ("aws_sns_topic", "SNS", "Integration"),
  ("aws_iam_role", "IAM", "Security"),
  ("aws_codebuild_project", "Codebuild", "DevOps"),
  ("aws_cloudformation_stack", "Cloudformation", "Management")]

def resourceKey : String := "resource"

def dependsOnKey : String := "depends_on"

def attrErrItems : String := "AttributeError: object has no attribute items"

def attrErrGet : String := "AttributeError: object has no attribute get"

def typeErrUnhashable : String := "TypeError: unhashable type"

/-- Composite resource id, `f"{resource_type}.{resource_name}"`. -/
def mkResourceId (t n : String) : String := t ++ "." ++ n

/-- Handling of one (type, name, config) triple in `extract_resources`
(lines 81-93 and 101-113 of the source): known types are inserted into the
resources dict, unknown types produce a warning. -/
def processTriple (acc : Resources × List Diag) (t n : String) (cfg : HV) :
    Resources × List Diag :=
  match alistGet RESOURCE_MAP t with
  | some (nc, cl) => (insertA acc.1 (mkResourceId t n) ⟨t, n, cfg, nc, cl⟩, acc.2)
  | none => (acc.1, acc.2 ++ [Diag.noMapping t (mkResourceId t n)])

/-- Iteration over `instances.items()`. -/
def foldTriples (t : String) : List (String × HV) → Resources × List Diag →
    Resources × List Diag
  | [], acc => acc
  | (n, cfg) :: rest, acc => foldTriples t rest (processTriple acc t n cfg)

/-- List-shape handling of one `instances` value (lines 80-95): a dict is
iterated, anything else is skipped with a diagnostic. -/
def processInstances (acc : Resources × List Diag) (t : String) (inst : HV) :
    Resources × List Diag :=
  match inst with
  | HV.dict entries => foldTriples t entries acc
  | other => (acc.1, acc.2 ++ [Diag.instancesNotDict t other])

/-- Iteration over `resource_block.items()`. -/
def foldTypeEntries : List (String × HV) → Resources × List Diag →
    Resources × List Diag
  | [], acc => acc
  | (t, inst) :: rest, acc => foldTypeEntries rest (processInstances acc t inst)

/-- Handling of one element of the `resource` list (lines 75-97): a dict is
iterated, anything else is skipped with a diagnostic. -/
def processBlock (acc : Resources × List Diag) (block : HV) :
    Resources × List Diag :=
  match block with
  | HV.dict entries => foldTypeEntries entries acc
  | other => (acc.1, acc.2 ++ [Diag.blockNotDict other])

/-- Iteration over the resource block list. -/
def foldBlocks : List HV → Resources × List Diag → Resources × List Diag
  | [], acc => acc
  | b :: rest, acc => foldBlocks rest (processBlock acc b)

/-- The list branch of `extract_resources` (lines 74-97); it never raises. -/
def extractListShape (blocks : List HV) : Resources × List Diag :=
  foldBlocks blocks ([], [])

/-- The dict fallback branch of `extract_resources` (lines 98-113). The source
calls `instances.items()` without an `isinstance` check, so a non-dict
instances value raises an AttributeError, modelled as `Except.error`. -/
def extractDictShape : List (String × HV) → Resources × List Diag →
    Except String (Resources × List Diag)
  | [], acc => Except.ok acc
  | (t, inst) :: rest, acc =>
    match inst with
    | HV.dict entries => extractDictShape rest (foldTriples t entries acc)
    | _ => Except.error attrErrItems

/-- The function `extract_resources` (lines 64-117). The parsed document is a
dict; `parsed_data.get("resource", [])` defaults to an empty list. -/
def extract_resources (parsed : List (String × HV)) :
    Except String (Resources × List Diag) :=
  match (alistGet parsed resourceKey).getD (HV.list []) with
  | HV.list blocks => Except.ok (extractListShape blocks)
  | HV.dict entries => extractDictShape entries ([], [])
  | other => Except.ok ([], [Diag.unexpectedResourceStructure other])

abbrev Clusters := List (String × List String)

/-- The `clusters.setdefault(cluster_name, []).append(resource_id)` step
(lines 142-145): append to the list of an existing category in place, or add
a new (category, [id]) entry at the end. -/
def appendToCluster : Clusters → String → String → Clusters
  | [], cat, rid => [(cat, [rid])]
  | (c, ids) :: rest, cat, rid =>
    if c = cat then (c, ids ++ [rid]) :: rest
    else (c, ids) :: appendToCluster rest cat rid

/-- Iteration over `resources.items()` while grouping into clusters. -/
def clustersFold : Resources → Clusters → Clusters
  | [], cs => cs
  | (rid, r) :: rest, cs => clustersFold rest (appendToCluster cs r.cluster rid)

/-- Cluster grouping of the extracted resources (lines 142-145). -/
def buildClusters (res : Resources) : Clusters :=
  clustersFold res []

/-- Concatenation of all member lists, in cluster order; this is the order in
which diagram nodes are created (lines 153-158), so it also gives the key set
of the `nodes` dict. -/
def joinMembers : Clusters → List String
  | [] => []
  | c :: rest => c.2 ++ joinMembers rest

/-- Keys of the `nodes` dict after the cluster/node creation loop. -/
def nodeKeys (res : Resources) : List String :=
  joinMembers (buildClusters res)

/-- Directed diagram edge created by `nodes[dep] >> nodes[resource_id]`. -/
structure GEdge where
  fromId : String
  toId : String
deriving DecidableEq, Repr

/-- Python truthiness of an `HV` value, used by `if depends_on:` (line 172). -/
def pyTruthy : HV → Bool
  | HV.str s => !s.isEmpty
  | HV.num n => n != 0
  | HV.bool b => b
  | HV.list l => !l.isEmpty
  | HV.dict d => !d.isEmpty

/-- Handling of a single dependency reference (lines 164-170). Evaluating
`dep in nodes` raises a TypeError when `dep` is unhashable (a list or dict);
a string is in `nodes` when it is one of the node keys; other scalars are
hashable but never equal a string key. -/
def processDep (keys : List String) (rid : String) (acc : List GEdge × List Diag)
    (dep : HV) : Except String (List GEdge × List Diag) :=
  match dep with
  | HV.list _ => Except.error typeErrUnhashable
  | HV.dict _ => Except.error typeErrUnhashable
  | HV.str s =>
    if s ∈ keys ∧ rid ∈ keys then
      Except.ok (acc.1 ++ [⟨s, rid⟩], acc.2)
    else
      Except.ok (acc.1, acc.2 ++ [Diag.depNotFound (HV.str s) rid])
  | HV.num k => Except.ok (acc.1, acc.2 ++ [Diag.depNotFound (HV.num k) rid])
  | HV.bool b => Except.ok (acc.1, acc.2 ++ [Diag.depNotFound (HV.bool b) rid])

/-- Iteration over the `depends_on` list. -/
def depsFold (keys : List String) (rid : String) : List HV →
    List GEdge × List Diag → Except String (List GEdge × List Diag)
  | [], acc => Except.ok acc
  | dep :: rest, acc =>
    match processDep keys rid acc dep with
    | Except.error e => Except.error e
    | Except.ok acc2 => depsFold keys rid rest acc2

/-- The `resource["config"].get("depends_on", [])` call (line 162): `.get`
exists only on dicts, so a non-dict config raises an AttributeError. -/
def getDependsOn (cfg : HV) : Except String HV :=
  match cfg with
  | HV.dict d => Except.ok ((alistGet d dependsOnKey).getD (HV.list []))
  | _ => Except.error attrErrGet

/-- The `else` arm of the edge loop (lines 171-173): a non-list `depends_on`
value produces a warning only when it is truthy, and never any edge. -/
def nonListDependsOn (rid : String) (acc : List GEdge × List Diag) (v : HV) :
    Except String (List GEdge × List Diag) :=
  if pyTruthy v then
    Except.ok (acc.1, acc.2 ++ [Diag.dependsOnNotList rid])
  else
    Except.ok acc

/-- Edge handling for one resource (lines 161-173): a list `depends_on` is
resolved reference by reference; any other value goes to the non-list arm. -/
def processResourceDeps (keys : List String) (rid : String) (r : ResourceRecord)
    (acc : List GEdge × List Diag) : Except String (List GEdge × List Diag) :=
  match getDependsOn r.config with
  | Except.error e => Except.error e
  | Except.ok (HV.list deps) => depsFold keys rid deps acc
  | Except.ok (HV.str s) => nonListDependsOn rid acc (HV.str s)
  | Except.ok (HV.num k) => nonListDependsOn rid acc (HV.num k)
  | Except.ok (HV.bool b) => nonListDependsOn rid acc (HV.bool b)
  | Except.ok (HV.dict d) => nonListDependsOn rid acc (HV.dict d)

/-- Iteration over `resources.items()` in the edge loop. -/
def edgesFold (keys : List String) : Resources → List GEdge × List Diag →
    Except String (List GEdge × List Diag)
  | [], acc => Except.ok acc
  | (rid, r) :: rest, acc =>
    match processResourceDeps keys rid r acc with
    | Except.error e => Except.error e
    | Except.ok acc2 => edgesFold keys rest acc2

/-- The whole edge-creation loop (lines 160-173), run against the keys of the
`nodes` dict built by the cluster loop. -/
def buildEdges (res : Resources) : Except String (List GEdge × List Diag) :=
  edgesFold (nodeKeys res) res ([], [])

/-- The graph handed to the renderer: resources, clusters, edges, plus the
collected diagnostics. -/
structure DependencyGraph where
  resources : Resources
  clusters : Clusters
  edges : List GEdge
  diags : List Diag

/-- The core of `generate_diagram_from_terraform` (lines 119-177) after
parsing: extraction, cluster grouping and edge resolution; file I/O and the
renderer are out of scope. -/
def generate_diagram_from_terraform (parsed : List (String × HV)) :
    Except String DependencyGraph :=
  match extract_resources parsed with
  | Except.error e => Except.error e
  | Except.ok (res, d1) =>
    match buildEdges res with
    | Except.error e => Except.error e
    | Except.ok (edges, d2) =>
      Except.ok ⟨res, buildClusters res, edges, d1 ++ d2⟩

/-- Triples (type, name, config) declared by one instances value. -/
def triplesOfInstances (t : String) (inst : HV) : List (String × String × HV) :=
  match inst with
  | HV.dict entries => entries.map (fun p => (t, p.1, p.2))
  | _ => []

/-- Triples declared by one resource block. -/
def triplesOfBlock (block : HV) : List (String × String × HV) :=
  match block with
  | HV.dict entries => entries.flatMap (fun p => triplesOfInstances p.1 p.2)
  | _ => []

/-- All (type, name, config) triples declared by the parsed document, in
traversal order, for either accepted shape. -/
def declaredTriples (parsed : List (String × HV)) : List (String × String × HV) :=
  match (alistGet parsed resourceKey).getD (HV.list []) with
  | HV.list blocks => blocks.flatMap triplesOfBlock
  | HV.dict entries => entries.flatMap (fun p => triplesOfInstances p.1 p.2)
  | _ => []

/-- Keys of a resources association list. -/
def keysOf (res : Resources) : List String := res.map Prod.fst

/-- Hashability of a value in the Python sense: lists and dicts are not
hashable, so `dep in nodes` raises on them. -/
def hashable : HV → Bool
  | HV.list _ => false
  | HV.dict _ => false
  | _ => true

theorem alistGet_mem {α} (m : List (String × α)) (k : String) (v : α)
    (h : alistGet m k = some v) : (k, v) ∈ m := by
  induction m with
  | nil => simp [alistGet] at h
  | cons hd tl ih =>
    obtain ⟨k0, v0⟩ := hd
    by_cases hk : k0 = k
    · subst hk
      simp [alistGet] at h
      subst h
      exact List.mem_cons_self _ _
    · simp [alistGet, hk] at h
      exact List.mem_cons_of_mem _ (ih h)

theorem mem_insertA {α} (m : List (String × α)) (k : String) (v : α)
    (p : String × α) (h : p ∈ insertA m k v) : p = (k, v) ∨ p ∈ m := by
  induction m with
  | nil => simp [insertA] at h; simp [h]
  | cons hd tl ih =>
    obtain ⟨k0, v0⟩ := hd
    by_cases hk : k0 = k
    · subst hk
      simp [insertA] at h
      rcases h with h | h
      · exact Or.inl (by simp [h])
      · exact Or.inr (List.mem_cons_of_mem _ h)
    · simp [insertA, hk] at h
      rcases h with h | h
      · exact Or.inr (by simp [h])
      · rcases ih h with h2 | h2
        · exact Or.inl h2
        · exact Or.inr (List.mem_cons_of_mem _ h2)

theorem keys_insertA {α} (m : List (String × α)) (k : String) (v : α) :
    (insertA m k v).map Prod.fst =
      if k ∈ m.map Prod.fst then m.map Prod.fst else m.map Prod.fst ++ [k] := by
  induction m with
  | nil => simp [insertA]
  | cons hd tl ih =>
    obtain ⟨k0, v0⟩ := hd
    by_cases hk : k0 = k
    · subst hk
      simp [insertA]
    · simp only [insertA, if_neg hk, List.map_cons, ih]
      by_cases hmem : k ∈ tl.map Prod.fst
      · simp [hmem, Ne.symm hk]
      · simp [hmem, Ne.symm hk]

theorem nodup_keys_insertA {α} (m : List (String × α)) (k : String) (v : α)
    (h : (m.map Prod.fst).Nodup) : ((insertA m k v).map Prod.fst).Nodup := by
  rw [keys_insertA]
  by_cases hmem : k ∈ m.map Prod.fst
  · simpa [hmem] using h
  · rw [if_neg hmem, List.nodup_append]
    exact ⟨h, List.nodup_singleton k, List.disjoint_singleton.mpr hmem⟩

/-- Well-formed extracted record: it comes from a declared triple whose type
the registry knows, with the composite id and the registry data. -/
def RecWF (pool : List (String × String × HV)) (p : String × ResourceRecord) : Prop :=
  ∃ t n cfg nc cl, (t, n, cfg) ∈ pool ∧ alistGet RESOURCE_MAP t = some (nc, cl) ∧
    p.1 = mkResourceId t n ∧ p.2 = ⟨t, n, cfg, nc, cl⟩

/-- Invariant carried by every piece of the extraction traversal, relative to
the (type, name, config) triples `pool` that the piece declares: records are
either inherited from the accumulator or well formed from the pool, key
uniqueness is preserved, diagnostics only grow, and every pool triple with an
unknown type has its warning in the output diagnostics. -/
def ExtInv (pool : List (String × String × HV)) (acc out : Resources × List Diag) : Prop :=
  (∀ p ∈ out.1, p ∈ acc.1 ∨ RecWF pool p) ∧
  ((acc.1.map Prod.fst).Nodup → (out.1.map Prod.fst).Nodup) ∧
  (∃ δ, out.2 = acc.2 ++ δ) ∧
  (∀ t n cfg, (t, n, cfg) ∈ pool → alistGet RESOURCE_MAP t = none →
    Diag.noMapping t (mkResourceId t n) ∈ out.2)

theorem ExtInv_refl (acc : Resources × List Diag) : ExtInv [] acc acc := by
  refine ⟨fun p hp => Or.inl hp, id, ⟨[], by simp⟩, ?_⟩
  intro t n cfg h
  simp at h

theorem ExtInv_diag (acc : Resources × List Diag) (ds : List Diag) :
    ExtInv [] acc (acc.1, acc.2 ++ ds) := by
  refine ⟨fun p hp => Or.inl hp, id, ⟨ds, rfl⟩, ?_⟩
  intro t n cfg h
  simp at h

theorem ExtInv_trans {p1 p2 : List (String × String × HV)}
    {a b c : Resources × List Diag}
    (h1 : ExtInv p1 a b) (h2 : ExtInv p2 b c) : ExtInv (p1 ++ p2) a c := by
  obtain ⟨m1, n1, ⟨d1, hd1⟩, u1⟩ := h1
  obtain ⟨m2, n2, ⟨d2, hd2⟩, u2⟩ := h2
  refine ⟨?_, fun h => n2 (n1 h), ⟨d1 ++ d2, by rw [hd2, hd1, List.append_assoc]⟩, ?_⟩
  · intro p hp
    rcases m2 p hp with h | h
    · rcases m1 p h with h' | h'
      · exact Or.inl h'
      · exact Or.inr (by
          obtain ⟨t, n, cfg, nc, cl, hmem, rest⟩ := h'
          exact ⟨t, n, cfg, nc, cl, List.mem_append.mpr (Or.inl hmem), rest⟩)
    · exact Or.inr (by
        obtain ⟨t, n, cfg, nc, cl, hmem, rest⟩ := h
        exact ⟨t, n, cfg, nc, cl, List.mem_append.mpr (Or.inr hmem), rest⟩)
  · intro t n cfg hmem hnone
    rcases List.mem_append.mp hmem with h | h
    · rw [hd2]
      exact List.mem_append.mpr (Or.inl (u1 t n cfg h hnone))
    · exact u2 t n cfg h hnone

theorem processTriple_inv (acc : Resources × List Diag) (t n : String) (cfg : HV) :
    ExtInv [(t, n, cfg)] acc (processTriple acc t n cfg) := by
  unfold processTriple
  cases hlk : alistGet RESOURCE_MAP t with
  | some v =>
    obtain ⟨nc, cl⟩ := v
    refine ⟨?_, fun h => nodup_keys_insertA _ _ _ h, ⟨[], by simp⟩, ?_⟩
    · intro p hp
      rcases mem_insertA _ _ _ _ hp with h | h
      · exact Or.inr ⟨t, n, cfg, nc, cl, List.mem_cons_self _ _, hlk, by simp [h], by simp [h]⟩
      · exact Or.inl h
    · intro t' n' cfg' hmem hnone
      simp at hmem
      obtain ⟨ht, hn, hc⟩ := hmem
      subst ht
      rw [hlk] at hnone
      exact absurd hnone (by simp)
  | none =>
    refine ⟨fun p hp => Or.inl hp, id, ⟨[Diag.noMapping t (mkResourceId t n)], rfl⟩, ?_⟩
    intro t' n' cfg' hmem hnone
    simp at hmem
    obtain ⟨ht, hn, hc⟩ := hmem
    subst ht
    subst hn
    exact List.mem_append.mpr (Or.inr (List.mem_cons_self _ _))

theorem foldTriples_inv (t : String) :
    ∀ (entries : List (String × HV)) (acc : Resources × List Diag),
    ExtInv (entries.map (fun e => (t, e.1, e.2))) acc (foldTriples t entries acc) := by
  intro entries
  induction entries with
  | nil => intro acc; exact ExtInv_refl acc
  | cons hd tl ih =>
    intro acc
    obtain ⟨n, cfg⟩ := hd
    show ExtInv ((t, n, cfg) :: tl.map (fun e => (t, e.1, e.2))) acc _
    have : (t, n, cfg) :: tl.map (fun e => (t, e.1, e.2)) =
        [(t, n, cfg)] ++ tl.map (fun e => (t, e.1, e.2)) := rfl
    rw [this]
    exact ExtInv_trans (processTriple_inv acc t n cfg) (ih _)

theorem processInstances_inv (acc : Resources × List Diag) (t : String) (inst : HV) :
    ExtInv (triplesOfInstances t inst) acc (processInstances acc t inst) := by
  cases inst with
  | dict entries => exact foldTriples_inv t entries acc
  | str s => exact ExtInv_diag acc _
  | num k => exact ExtInv_diag acc _
  | bool b => exact ExtInv_diag acc _
  | list l => exact ExtInv_diag acc _

theorem foldTypeEntries_inv :
    ∀ (entries : List (String × HV)) (acc : Resources × List Diag),
    ExtInv (entries.flatMap (fun p => triplesOfInstances p.1 p.2)) acc
      (foldTypeEntries entries acc) := by
  intro entries
  induction entries with
  | nil => intro acc; exact ExtInv_refl acc
  | cons hd tl ih =>
    intro acc
    rw [List.flatMap_cons]
    exact ExtInv_trans (processInstances_inv acc hd.1 hd.2) (ih _)

theorem processBlock_inv (acc : Resources × List Diag) (block : HV) :
    ExtInv (triplesOfBlock block) acc (processBlock acc block) := by
  cases block with
  | dict entries => exact foldTypeEntries_inv entries acc
  | str s => exact ExtInv_diag acc _
  | num k => exact ExtInv_diag acc _
  | bool b => exact ExtInv_diag acc _
  | list l => exact ExtInv_diag acc _

theorem foldBlocks_inv :
    ∀ (blocks : List HV) (acc : Resources × List Diag),
    ExtInv (blocks.flatMap triplesOfBlock) acc (foldBlocks blocks acc) := by
  intro blocks
  induction blocks with
  | nil => intro acc; exact ExtInv_refl acc
  | cons hd tl ih =>
    intro acc
    rw [List.flatMap_cons]
    exact ExtInv_trans (processBlock_inv acc hd) (ih _)

theorem extractDictShape_inv :
    ∀ (entries : List (String × HV)) (acc out : Resources × List Diag),
    extractDictShape entries acc = Except.ok out →
    ExtInv (entries.flatMap (fun p => triplesOfInstances p.1 p.2)) acc out := by
  intro entries
  induction entries with
  | nil =>
    intro acc out h
    simp [extractDictShape] at h
    subst h
    exact ExtInv_refl acc
  | cons hd tl ih =>
    intro acc out h
    obtain ⟨t, inst⟩ := hd
    rw [List.flatMap_cons]
    cases inst with
    | dict entries2 =>
      have h2 : extractDictShape tl (foldTriples t entries2 acc) = Except.ok out := h
      exact ExtInv_trans (foldTriples_inv t entries2 acc) (ih _ _ h2)
    | str s => exact absurd h (by simp [extractDictShape])
    | num k => exact absurd h (by simp [extractDictShape])
    | bool b => exact absurd h (by simp [extractDictShape])
    | list l => exact absurd h (by simp [extractDictShape])

theorem extract_resources_inv (parsed : List (String × HV))
    (out : Resources × List Diag) (h : extract_resources parsed = Except.ok out) :
    ExtInv (declaredTriples parsed) ([], []) out := by
  unfold extract_resources at h
  unfold declaredTriples
  cases hv : (alistGet parsed resourceKey).getD (HV.list []) with
  | list blocks =>
    rw [hv] at h
    simp at h
    subst h
    exact foldBlocks_inv blocks ([], [])
  | dict entries =>
    rw [hv] at h
    exact extractDictShape_inv entries ([], []) out h
  | str s =>
    rw [hv] at h
    simp at h
    subst h
    exact ExtInv_diag ([], []) _
  | num k =>
    rw [hv] at h
    simp at h
    subst h
    exact ExtInv_diag ([], []) _
  | bool b =>
    rw [hv] at h
    simp at h
    subst h
    exact ExtInv_diag ([], []) _

theorem labels_appendToCluster (cs : Clusters) (cat rid : String) :
    (appendToCluster cs cat rid).map Prod.fst =
      if cat ∈ cs.map Prod.fst then cs.map Prod.fst else cs.map Prod.fst ++ [cat] := by
  induction cs with
  | nil => simp [appendToCluster]
  | cons hd tl ih =>
    obtain ⟨c, ids⟩ := hd
    by_cases hc : c = cat
    · subst hc
      simp [appendToCluster]
    · simp only [appendToCluster, if_neg hc, List.map_cons, ih]
      by_cases hmem : cat ∈ tl.map Prod.fst
      · simp [hmem, Ne.symm hc]
      · simp [hmem, Ne.symm hc]

theorem mem_labels_appendToCluster (cs : Clusters) (cat rid : String) (cat' : String) :
    cat' ∈ (appendToCluster cs cat rid).map Prod.fst ↔
      cat' ∈ cs.map Prod.fst ∨ cat' = cat := by
  rw [labels_appendToCluster]
  by_cases hmem : cat ∈ cs.map Prod.fst
  · rw [if_pos hmem]
    constructor
    · exact Or.inl
    · rintro (h | h)
      · exact h
      · exact h ▸ hmem
  · rw [if_neg hmem]
    simp [List.mem_append]

theorem nodup_labels_appendToCluster (cs : Clusters) (cat rid : String)
    (h : (cs.map Prod.fst).Nodup) : ((appendToCluster cs cat rid).map Prod.fst).Nodup := by
  rw [labels_appendToCluster]
  by_cases hmem : cat ∈ cs.map Prod.fst
  · simpa [hmem] using h
  · rw [if_neg hmem, List.nodup_append]
    exact ⟨h, List.nodup_singleton cat, List.disjoint_singleton.mpr hmem⟩

theorem mem_labels_clustersFold :
    ∀ (res : Resources) (cs : Clusters) (cat : String),
    cat ∈ (clustersFold res cs).map Prod.fst ↔
      cat ∈ cs.map Prod.fst ∨ ∃ p ∈ res, p.2.cluster = cat := by
  intro res
  induction res with
  | nil => intro cs cat; simp [clustersFold]
  | cons hd tl ih =>
    intro cs cat
    obtain ⟨rid, r⟩ := hd
    show cat ∈ (clustersFold tl (appendToCluster cs r.cluster rid)).map Prod.fst ↔ _
    rw [ih, mem_labels_appendToCluster]
    constructor
    · rintro ((h | h) | h)
      · exact Or.inl h
      · exact Or.inr ⟨(rid, r), List.mem_cons_self _ _, h.symm⟩
      · obtain ⟨p, hp, hc⟩ := h
        exact Or.inr ⟨p, List.mem_cons_of_mem _ hp, hc⟩
    · rintro (h | h)
      · exact Or.inl (Or.inl h)
      · obtain ⟨p, hp, hc⟩ := h
        rcases List.mem_cons.mp hp with h2 | h2
        · subst h2
          exact Or.inl (Or.inr hc.symm)
        · exact Or.inr ⟨p, h2, hc⟩

theorem nodup_labels_clustersFold :
    ∀ (res : Resources) (cs : Clusters),
    (cs.map Prod.fst).Nodup → ((clustersFold res cs).map Prod.fst).Nodup := by
  intro res
  induction res with
  | nil => intro cs h; exact h
  | cons hd tl ih =>
    intro cs h
    exact ih _ (nodup_labels_appendToCluster cs hd.2.cluster hd.1 h)

theorem joinMembers_appendToCluster (cs : Clusters) (cat rid : String) :
    (joinMembers (appendToCluster cs cat rid)).Perm (rid :: joinMembers cs) := by
  induction cs with
  | nil => simp [appendToCluster, joinMembers]
  | cons hd tl ih =>
    obtain ⟨c, ids⟩ := hd
    by_cases hc : c = cat
    · subst hc
      simp only [appendToCluster, if_pos rfl, joinMembers]
      rw [List.append_assoc, List.singleton_append]
      exact List.perm_middle
    · simp only [appendToCluster, if_neg hc, joinMembers]
      have h1 : (ids ++ joinMembers (appendToCluster tl cat rid)).Perm
          (ids ++ (rid :: joinMembers tl)) := List.Perm.append_left ids ih
      have h2 : (ids ++ (rid :: joinMembers tl)).Perm
          (rid :: (ids ++ joinMembers tl)) := List.perm_middle
      exact h1.trans h2

theorem clustersFold_perm :
    ∀ (res : Resources) (cs : Clusters),
    (joinMembers (clustersFold res cs)).Perm (keysOf res ++ joinMembers cs) := by
  intro res
  induction res with
  | nil => intro cs; simp [clustersFold, keysOf]
  | cons hd tl ih =>
    intro cs
    obtain ⟨rid, r⟩ := hd
    show (joinMembers (clustersFold tl (appendToCluster cs r.cluster rid))).Perm _
    have h1 := ih (appendToCluster cs r.cluster rid)
    have h2 : (keysOf tl ++ joinMembers (appendToCluster cs r.cluster rid)).Perm
        (keysOf tl ++ (rid :: joinMembers cs)) :=
      List.Perm.append_left _ (joinMembers_appendToCluster cs r.cluster rid)
    have h3 : (keysOf tl ++ (rid :: joinMembers cs)).Perm
        (rid :: (keysOf tl ++ joinMembers cs)) := List.perm_middle
    exact ((h1.trans h2).trans h3)

theorem buildClusters_perm (res : Resources) :
    (joinMembers (buildClusters res)).Perm (keysOf res) := by
  have h := clustersFold_perm res []
  simpa [joinMembers] using h

theorem mem_nodeKeys (res : Resources) (x : String) :
    x ∈ nodeKeys res ↔ x ∈ keysOf res :=
  (buildClusters_perm res).mem_iff


theorem processDep_sound {keys : List String} {rid : String}
    {acc out : List GEdge × List Diag} {dep : HV}
    (h : processDep keys rid acc dep = Except.ok out) :
    (∀ e ∈ out.1, e ∈ acc.1 ∨ (e.fromId ∈ keys ∧ e.toId ∈ keys)) ∧
    (∃ δ, out.2 = acc.2 ++ δ) := by
  cases dep with
  | list l => exact absurd h (by simp [processDep])
  | dict d => exact absurd h (by simp [processDep])
  | str s =>
    by_cases hc : s ∈ keys ∧ rid ∈ keys
    · have h2 : (if s ∈ keys ∧ rid ∈ keys then
          Except.ok (acc.1 ++ [GEdge.mk s rid], acc.2)
        else Except.ok (acc.1, acc.2 ++ [Diag.depNotFound (HV.str s) rid])) =
          Except.ok out := h
      rw [if_pos hc] at h2
      injection h2 with h3
      subst h3
      refine ⟨?_, ⟨[], by simp⟩⟩
      intro e he
      rcases List.mem_append.mp he with h4 | h4
      · exact Or.inl h4
      · simp at h4
        subst h4
        exact Or.inr ⟨hc.1, hc.2⟩
    · have h2 : (if s ∈ keys ∧ rid ∈ keys then
          Except.ok (acc.1 ++ [GEdge.mk s rid], acc.2)
        else Except.ok (acc.1, acc.2 ++ [Diag.depNotFound (HV.str s) rid])) =
          Except.ok out := h
      rw [if_neg hc] at h2
      injection h2 with h3
      subst h3
      exact ⟨fun e he => Or.inl he, ⟨_, rfl⟩⟩
  | num k =>
    have h2 : Except.ok (ε := String)
        (acc.1, acc.2 ++ [Diag.depNotFound (HV.num k) rid]) = Except.ok out := h
    injection h2 with h3
    subst h3
    exact ⟨fun e he => Or.inl he, ⟨_, rfl⟩⟩
  | bool b =>
    have h2 : Except.ok (ε := String)
        (acc.1, acc.2 ++ [Diag.depNotFound (HV.bool b) rid]) = Except.ok out := h
    injection h2 with h3
    subst h3
    exact ⟨fun e he => Or.inl he, ⟨_, rfl⟩⟩

theorem depsFold_sound {keys : List String} {rid : String} :
    ∀ (deps : List HV) (acc out : List GEdge × List Diag),
    depsFold keys rid deps acc = Except.ok out →
    (∀ e ∈ out.1, e ∈ acc.1 ∨ (e.fromId ∈ keys ∧ e.toId ∈ keys)) ∧
    (∃ δ, out.2 = acc.2 ++ δ) := by
  intro deps
  induction deps with
  | nil =>
    intro acc out h
    have h2 : Except.ok (ε := String) acc = Except.ok out := h
    injection h2 with h3
    subst h3
    exact ⟨fun e he => Or.inl he, ⟨[], by simp⟩⟩
  | cons dep rest ih =>
    intro acc out h
    cases hp : processDep keys rid acc dep with
    | error e =>
      rw [depsFold, hp] at h
      exact absurd h (by simp)
    | ok acc2 =>
      rw [depsFold, hp] at h
      obtain ⟨m1, ⟨d1, hd1⟩⟩ := processDep_sound hp
      obtain ⟨m2, ⟨d2, hd2⟩⟩ := ih acc2 out h
      refine ⟨?_, ⟨d1 ++ d2, by rw [hd2, hd1, List.append_assoc]⟩⟩
      intro e he
      rcases m2 e he with h2 | h2
      · exact m1 e h2
      · exact Or.inr h2

theorem nonListDependsOn_sound {rid : String} {acc out : List GEdge × List Diag}
    {v : HV} (h : nonListDependsOn rid acc v = Except.ok out) :
    out.1 = acc.1 ∧ (∃ δ, out.2 = acc.2 ++ δ) := by
  unfold nonListDependsOn at h
  by_cases ht : pyTruthy v = true
  · rw [if_pos ht] at h
    injection h with h3
    subst h3
    exact ⟨rfl, ⟨_, rfl⟩⟩
  · rw [if_neg ht] at h
    injection h with h3
    subst h3
    exact ⟨rfl, ⟨[], by simp⟩⟩

theorem processResourceDeps_sound {keys : List String} {rid : String}
    {r : ResourceRecord} {acc out : List GEdge × List Diag}
    (h : processResourceDeps keys rid r acc = Except.ok out) :
    (∀ e ∈ out.1, e ∈ acc.1 ∨ (e.fromId ∈ keys ∧ e.toId ∈ keys)) ∧
    (∃ δ, out.2 = acc.2 ++ δ) := by
  unfold processResourceDeps at h
  cases hg : getDependsOn r.config with
  | error e => rw [hg] at h; exact absurd h (by simp)
  | ok v =>
    rw [hg] at h
    cases v with
    | list deps => exact depsFold_sound deps acc out h
    | str s =>
      obtain ⟨h1, h2⟩ := nonListDependsOn_sound (v := HV.str s) h
      exact ⟨fun e he => Or.inl (h1 ▸ he), h2⟩
    | num k =>
      obtain ⟨h1, h2⟩ := nonListDependsOn_sound (v := HV.num k) h
      exact ⟨fun e he => Or.inl (h1 ▸ he), h2⟩
    | bool b =>
      obtain ⟨h1, h2⟩ := nonListDependsOn_sound (v := HV.bool b) h
      exact ⟨fun e he => Or.inl (h1 ▸ he), h2⟩
    | dict d =>
      obtain ⟨h1, h2⟩ := nonListDependsOn_sound (v := HV.dict d) h
      exact ⟨fun e he => Or.inl (h1 ▸ he), h2⟩

theorem edgesFold_sound {keys : List String} :
    ∀ (res : Resources) (acc out : List GEdge × List Diag),
    edgesFold keys res acc = Except.ok out →
    (∀ e ∈ out.1, e ∈ acc.1 ∨ (e.fromId ∈ keys ∧ e.toId ∈ keys)) ∧
    (∃ δ, out.2 = acc.2 ++ δ) := by
  intro res
  induction res with
  | nil =>
    intro acc out h
    have h2 : Except.ok (ε := String) acc = Except.ok out := h
    injection h2 with h3
    subst h3
    exact ⟨fun e he => Or.inl he, ⟨[], by simp⟩⟩
  | cons hd tl ih =>
    intro acc out h
    obtain ⟨rid, r⟩ := hd
    cases hp : processResourceDeps keys rid r acc with
    | error e =>
      rw [edgesFold, hp] at h
      exact absurd h (by simp)
    | ok acc2 =>
      rw [edgesFold, hp] at h
      obtain ⟨m1, ⟨d1, hd1⟩⟩ := processResourceDeps_sound hp
      obtain ⟨m2, ⟨d2, hd2⟩⟩ := ih acc2 out h
      refine ⟨?_, ⟨d1 ++ d2, by rw [hd2, hd1, List.append_assoc]⟩⟩
      intro e he
      rcases m2 e he with h2 | h2
      · exact m1 e h2
      · exact Or.inr h2

/-- Edges produced from one resource's `depends_on` list: one edge per
occurrence of a reference string that is a node key, in list order. -/
def edgesOf (keys : List String) (rid : String) : List HV → List GEdge
  | [] => []
  | HV.str s :: rest =>
    if s ∈ keys then GEdge.mk s rid :: edgesOf keys rid rest
    else edgesOf keys rid rest
  | HV.num _ :: rest => edgesOf keys rid rest
  | HV.bool _ :: rest => edgesOf keys rid rest
  | HV.list _ :: rest => edgesOf keys rid rest
  | HV.dict _ :: rest => edgesOf keys rid rest

/-- Warnings produced from one resource's `depends_on` list: one "dependency
not found" warning per reference that is not a node key, in list order. -/
def diagsOf (keys : List String) (rid : String) : List HV → List Diag
  | [] => []
  | HV.str s :: rest =>
    if s ∈ keys then diagsOf keys rid rest
    else Diag.depNotFound (HV.str s) rid :: diagsOf keys rid rest
  | HV.num k :: rest => Diag.depNotFound (HV.num k) rid :: diagsOf keys rid rest
  | HV.bool b :: rest => Diag.depNotFound (HV.bool b) rid :: diagsOf keys rid rest
  | HV.list l :: rest => Diag.depNotFound (HV.list l) rid :: diagsOf keys rid rest
  | HV.dict d :: rest => Diag.depNotFound (HV.dict d) rid :: diagsOf keys rid rest

/-- Test for a specific reference string among dependency values. -/
def isStrEq (s : String) : HV → Bool
  | HV.str s2 => s2 == s
  | HV.num _ => false
  | HV.bool _ => false
  | HV.list _ => false
  | HV.dict _ => false

theorem depsFold_exact {keys : List String} {rid : String} (hr : rid ∈ keys) :
    ∀ (deps : List HV) (acc : List GEdge × List Diag),
    (∀ d ∈ deps, hashable d = true) →
    depsFold keys rid deps acc =
      Except.ok (acc.1 ++ edgesOf keys rid deps, acc.2 ++ diagsOf keys rid deps) := by
  intro deps
  induction deps with
  | nil => intro acc hh; simp [depsFold, edgesOf, diagsOf]
  | cons dep rest ih =>
    intro acc hh
    have hrest : ∀ d ∈ rest, hashable d = true :=
      fun d hd => hh d (List.mem_cons_of_mem _ hd)
    cases dep with
    | str s =>
      by_cases hs : s ∈ keys
      · have hp : processDep keys rid acc (HV.str s) =
            Except.ok (acc.1 ++ [GEdge.mk s rid], acc.2) := by
          simp only [processDep]
          rw [if_pos ⟨hs, hr⟩]
        calc depsFold keys rid (HV.str s :: rest) acc
            = depsFold keys rid rest (acc.1 ++ [GEdge.mk s rid], acc.2) := by
              rw [depsFold, hp]
          _ = Except.ok ((acc.1 ++ [GEdge.mk s rid]) ++ edgesOf keys rid rest,
                acc.2 ++ diagsOf keys rid rest) := ih _ hrest
          _ = Except.ok (acc.1 ++ edgesOf keys rid (HV.str s :: rest),
                acc.2 ++ diagsOf keys rid (HV.str s :: rest)) := by
              simp [edgesOf, diagsOf, hs, List.append_assoc]
      · have hp : processDep keys rid acc (HV.str s) =
            Except.ok (acc.1, acc.2 ++ [Diag.depNotFound (HV.str s) rid]) := by
          simp only [processDep]
          rw [if_neg (fun hc => hs hc.1)]
        calc depsFold keys rid (HV.str s :: rest) acc
            = depsFold keys rid rest (acc.1, acc.2 ++ [Diag.depNotFound (HV.str s) rid]) := by
              rw [depsFold, hp]
          _ = Except.ok (acc.1 ++ edgesOf keys rid rest,
                (acc.2 ++ [Diag.depNotFound (HV.str s) rid]) ++ diagsOf keys rid rest) :=
              ih _ hrest
          _ = Except.ok (acc.1 ++ edgesOf keys rid (HV.str s :: rest),
                acc.2 ++ diagsOf keys rid (HV.str s :: rest)) := by
              simp [edgesOf, diagsOf, hs, List.append_assoc]
    | num k =>
      have hp : processDep keys rid acc (HV.num k) =
          Except.ok (acc.1, acc.2 ++ [Diag.depNotFound (HV.num k) rid]) := rfl
      calc depsFold keys rid (HV.num k :: rest) acc
          = depsFold keys rid rest (acc.1, acc.2 ++ [Diag.depNotFound (HV.num k) rid]) := by
            rw [depsFold, hp]
        _ = Except.ok (acc.1 ++ edgesOf keys rid rest,
              (acc.2 ++ [Diag.depNotFound (HV.num k) rid]) ++ diagsOf keys rid rest) :=
            ih _ hrest
        _ = Except.ok (acc.1 ++ edgesOf keys rid (HV.num k :: rest),
              acc.2 ++ diagsOf keys rid (HV.num k :: rest)) := by
            simp [edgesOf, diagsOf, List.append_assoc]
    | bool b =>
      have hp : processDep keys rid acc (HV.bool b) =
          Except.ok (acc.1, acc.2 ++ [Diag.depNotFound (HV.bool b) rid]) := rfl
      calc depsFold keys rid (HV.bool b :: rest) acc
          = depsFold keys rid rest (acc.1, acc.2 ++ [Diag.depNotFound (HV.bool b) rid]) := by
            rw [depsFold, hp]
        _ = Except.ok (acc.1 ++ edgesOf keys rid rest,
              (acc.2 ++ [Diag.depNotFound (HV.bool b) rid]) ++ diagsOf keys rid rest) :=
            ih _ hrest
        _ = Except.ok (acc.1 ++ edgesOf keys rid (HV.bool b :: rest),
              acc.2 ++ diagsOf keys rid (HV.bool b :: rest)) := by
            simp [edgesOf, diagsOf, List.append_assoc]
    | list l =>
      have := hh _ (List.mem_cons_self (HV.list l) rest)
      simp [hashable] at this
    | dict d =>
      have := hh _ (List.mem_cons_self (HV.dict d) rest)
      simp [hashable] at this

theorem edgesOf_count {keys : List String} {rid s : String} (hs : s ∈ keys) :
    ∀ deps : List HV,
    List.count (GEdge.mk s rid) (edgesOf keys rid deps) =
      List.countP (isStrEq s) deps := by
  intro deps
  induction deps with
  | nil => simp [edgesOf]
  | cons dep rest ih =>
    cases dep with
    | str s2 =>
      by_cases h2 : s2 ∈ keys
      · have he : edgesOf keys rid (HV.str s2 :: rest) =
            GEdge.mk s2 rid :: edgesOf keys rid rest := by
          simp [edgesOf, h2]
        rw [he, List.count_cons, List.countP_cons, ih]
        by_cases hss : s2 = s
        · subst hss
          simp [isStrEq]
        · simp [isStrEq, hss, GEdge.mk.injEq, beq_iff_eq]
      · have he : edgesOf keys rid (HV.str s2 :: rest) = edgesOf keys rid rest := by
          simp [edgesOf, h2]
        have hss : s2 ≠ s := fun hcc => h2 (hcc ▸ hs)
        rw [he, ih, List.countP_cons]
        simp [isStrEq, hss, beq_iff_eq]
    | num k =>
      rw [List.countP_cons]
      have he : edgesOf keys rid (HV.num k :: rest) = edgesOf keys rid rest := rfl
      rw [he, ih]
      simp [isStrEq]
    | bool b =>
      rw [List.countP_cons]
      have he : edgesOf keys rid (HV.bool b :: rest) = edgesOf keys rid rest := rfl
      rw [he, ih]
      simp [isStrEq]
    | list l =>
      rw [List.countP_cons]
      have he : edgesOf keys rid (HV.list l :: rest) = edgesOf keys rid rest := rfl
      rw [he, ih]
      simp [isStrEq]
    | dict d =>
      rw [List.countP_cons]
      have he : edgesOf keys rid (HV.dict d :: rest) = edgesOf keys rid rest := rfl
      rw [he, ih]
      simp [isStrEq]

/-- C1: the spec claims extraction never raises for a wrong-typed substructure
at any nesting level, in both accepted input shapes. This theorem evaluates
the embedded code at the failing input, the parsed document
{"resource": {"aws_instance": 5}}: in the collapsed single-mapping shape the
source iterates `instances.items()` with no isinstance guard (lines 100-101),
so a non-dict instances value raises an AttributeError instead of being
skipped with a diagnostic. The list shape is guarded (lines 80 and 94-95);
the dict fallback is not. -/
theorem c1_dict_shape_instances_raises :
    extract_resources [(resourceKey, HV.dict [("aws_instance", HV.num 5)])] =
      Except.error attrErrItems := rfl

def cfgAmiA : HV := HV.dict [("ami", HV.str "ami-a")]

def cfgAmiB : HV := HV.dict [("ami", HV.str "ami-b")]

/-- Document declaring `aws_instance.web` twice, with different configs. -/
def docC2 : List (String × HV) :=
  [(resourceKey, HV.list [
    HV.dict [("aws_instance", HV.dict [("web", cfgAmiA)])],
    HV.dict [("aws_instance", HV.dict [("web", cfgAmiB)])]])]

/-- C2 counterexample: on a document declaring the id `aws_instance.web`
twice, the extraction result keeps the later config (last-write-wins) but the
diagnostics list is empty: no diagnostic is emitted for the collision,
refuting the claim's diagnostic part. -/
theorem c2_counterexample :
    extract_resources docC2 = Except.ok
      ([("aws_instance.web",
        ⟨"aws_instance", "web", cfgAmiB, "EC2", "Compute"⟩)], []) := rfl

/-- C2 amended: when a computed resource id collides with an already-inserted
id, the later occurrence silently overwrites the earlier one (last-write-wins
via plain dict assignment, source line 85); no diagnostic of any kind is
emitted for the collision. Stated for two repeated blocks with arbitrary
configs. -/
theorem c2_last_write_wins (cfg1 cfg2 : HV) :
    extract_resources [(resourceKey, HV.list [
      HV.dict [("aws_instance", HV.dict [("web", cfg1)])],
      HV.dict [("aws_instance", HV.dict [("web", cfg2)])]])] =
    Except.ok ([("aws_instance.web",
      ⟨"aws_instance", "web", cfg2, "EC2", "Compute"⟩)], []) := rfl

/-- C9 counterexample: on a parsed document without the top-level `resource`
key, extraction returns the empty mapping with an empty diagnostics list:
`parsed_data.get("resource", [])` defaults to the empty list (line 72) and
the list branch runs with no warning, refuting the claim that a diagnostic is
recorded in the absent-key case. -/
theorem c9_counterexample : extract_resources [] = Except.ok ([], []) := rfl

/-- C9 amended: if the top-level `resource` key is absent, extraction returns
the empty mapping with no diagnostic (the default value is an empty list,
which takes the normal list branch); if the key is present with a value that
is neither a list nor a mapping, extraction returns the empty mapping plus
one diagnostic. Neither case is fatal: both return `Except.ok`. -/
theorem c9_resource_key_handling (parsed : List (String × HV)) :
    (alistGet parsed resourceKey = none →
      extract_resources parsed = Except.ok ([], [])) ∧
    (∀ v, alistGet parsed resourceKey = some v →
      (∀ l, v ≠ HV.list l) → (∀ d, v ≠ HV.dict d) →
      extract_resources parsed =
        Except.ok ([], [Diag.unexpectedResourceStructure v])) := by
  constructor
  · intro h
    unfold extract_resources
    rw [h]
    rfl
  · intro v hv hnl hnd
    unfold extract_resources
    rw [hv]
    cases v with
    | str s => rfl
    | num k => rfl
    | bool b => rfl
    | list l => exact absurd rfl (hnl l)
    | dict d => exact absurd rfl (hnd d)

/-- C9 witness: the amended claim applied to the concrete document
{"resource": "x"} (a scalar where a list or mapping is expected): empty
mapping, one diagnostic, not fatal. -/
theorem c9_resource_key_handling_witness :
    extract_resources [(resourceKey, HV.str "x")] =
      Except.ok ([], [Diag.unexpectedResourceStructure (HV.str "x")]) :=
  (c9_resource_key_handling [(resourceKey, HV.str "x")]).2 (HV.str "x") rfl
    (fun l h => HV.noConfusion h) (fun d h => HV.noConfusion h)

/-- C3: every edge of the generated graph points between keys of the
extracted resource mapping. The edge loop guards each edge with
`dep in nodes and resource_id in nodes` (line 166), and the node dict's keys
are exactly the resource mapping's keys, so no dangling edge survives. -/
theorem c3_no_dangling_edges (parsed : List (String × HV)) (g : DependencyGraph)
    (h : generate_diagram_from_terraform parsed = Except.ok g) :
    ∀ e ∈ g.edges, e.fromId ∈ keysOf g.resources ∧ e.toId ∈ keysOf g.resources := by
  unfold generate_diagram_from_terraform at h
  split at h
  · exact absurd h (by simp)
  · rename_i res d1 hx
    split at h
    · exact absurd h (by simp)
    · rename_i edges d2 hb
      injection h with h3
      subst h3
      intro e he
      have hb2 : edgesFold (nodeKeys res) res ([], []) = Except.ok (edges, d2) := hb
      obtain ⟨m, _⟩ := edgesFold_sound res ([], []) (edges, d2) hb2
      rcases m e he with h4 | h4
      · exact absurd h4 (List.not_mem_nil e)
      · exact ⟨(mem_nodeKeys res e.fromId).mp h4.1, (mem_nodeKeys res e.toId).mp h4.2⟩

/-- C4: the clusters built from an extraction result partition the resource
ids: cluster labels are pairwise distinct with one cluster per observed
category, and every extracted resource id occurs exactly once across all
member lists while absent ids occur zero times. -/
theorem c4_clusters_partition (parsed : List (String × HV)) (res : Resources)
    (diags : List Diag) (h : extract_resources parsed = Except.ok (res, diags)) :
    ((buildClusters res).map Prod.fst).Nodup ∧
    (∀ cat, cat ∈ (buildClusters res).map Prod.fst ↔ ∃ p ∈ res, p.2.cluster = cat) ∧
    (∀ rid ∈ keysOf res, List.count rid (joinMembers (buildClusters res)) = 1) ∧
    (∀ rid, rid ∉ keysOf res → List.count rid (joinMembers (buildClusters res)) = 0) := by
  have inv := extract_resources_inv parsed (res, diags) h
  have hnodup : (keysOf res).Nodup := inv.2.1 List.nodup_nil
  refine ⟨nodup_labels_clustersFold res [] List.nodup_nil, ?_, ?_, ?_⟩
  · intro cat
    rw [buildClusters, mem_labels_clustersFold res [] cat]
    simp
  · intro rid hrid
    rw [(buildClusters_perm res).count_eq rid]
    exact List.count_eq_one_of_mem hnodup hrid
  · intro rid hrid
    rw [(buildClusters_perm res).count_eq rid]
    exact List.count_eq_zero.mpr hrid

/-- C5: every key of an extraction result is the composite id
type ++ "." ++ name of some (type, name, config) triple declared by the
input document, and the keys are pairwise distinct. -/
theorem c5_ids_unique_and_declared (parsed : List (String × HV)) (res : Resources)
    (diags : List Diag) (h : extract_resources parsed = Except.ok (res, diags)) :
    (keysOf res).Nodup ∧
    (∀ p ∈ res, ∃ t n cfg, (t, n, cfg) ∈ declaredTriples parsed ∧
      p.1 = mkResourceId t n) := by
  have inv := extract_resources_inv parsed (res, diags) h
  refine ⟨inv.2.1 List.nodup_nil, ?_⟩
  intro p hp
  rcases inv.1 p hp with h2 | h2
  · exact absurd h2 (List.not_mem_nil p)
  · obtain ⟨t, n, cfg, nc, cl, hmem, _, hid, _⟩ := h2
    exact ⟨t, n, cfg, hmem, hid⟩

/-- C6: a declared resource whose type the registry does not know yields no
record (every record in the output has a registered type), a "no mapping"
diagnostic is recorded for each such declared triple, and the run is not
aborted: whenever the `resource` value takes the list shape, extraction
always completes with `Except.ok`. -/
theorem c6_unknown_type_filtered (parsed : List (String × HV)) :
    ((∃ blocks, (alistGet parsed resourceKey).getD (HV.list []) = HV.list blocks) →
      ∃ out, extract_resources parsed = Except.ok out) ∧
    (∀ res diags, extract_resources parsed = Except.ok (res, diags) →
      (∀ p ∈ res, (alistGet RESOURCE_MAP p.2.type).isSome = true) ∧
      (∀ t n cfg, (t, n, cfg) ∈ declaredTriples parsed →
        alistGet RESOURCE_MAP t = none →
        Diag.noMapping t (mkResourceId t n) ∈ diags)) := by
  constructor
  · rintro ⟨blocks, hb⟩
    refine ⟨extractListShape blocks, ?_⟩
    unfold extract_resources
    rw [hb]
  · intro res diags h
    have inv := extract_resources_inv parsed (res, diags) h
    constructor
    · intro p hp
      rcases inv.1 p hp with h2 | h2
      · exact absurd h2 (List.not_mem_nil p)
      · obtain ⟨t, n, cfg, nc, cl, _, hlk, _, hrec⟩ := h2
        rw [hrec]
        show (alistGet RESOURCE_MAP t).isSome = true
        rw [hlk]
        rfl
    · exact inv.2.2.2

/-- C10: every record of an extraction result carries exactly the registry's
data for its type: `RESOURCE_MAP` maps the record's type to its node class
and category label; consequently every cluster label produced by grouping is
one of the registry's category values. -/
theorem c10_category_consistency (parsed : List (String × HV)) (res : Resources)
    (diags : List Diag) (h : extract_resources parsed = Except.ok (res, diags)) :
    (∀ p ∈ res, alistGet RESOURCE_MAP p.2.type =
      some (p.2.node_class, p.2.cluster)) ∧
    (∀ cat ∈ (buildClusters res).map Prod.fst,
      cat ∈ RESOURCE_MAP.map (fun e => e.2.2)) := by
  have inv := extract_resources_inv parsed (res, diags) h
  have hrec : ∀ p ∈ res, alistGet RESOURCE_MAP p.2.type =
      some (p.2.node_class, p.2.cluster) := by
    intro p hp
    rcases inv.1 p hp with h2 | h2
    · exact absurd h2 (List.not_mem_nil p)
    · obtain ⟨t, n, cfg, nc, cl, _, hlk, _, hrecp⟩ := h2
      rw [hrecp]
      exact hlk
  refine ⟨hrec, ?_⟩
  intro cat hcat
  rw [buildClusters, mem_labels_clustersFold res [] cat] at hcat
  rcases hcat with h2 | h2
  · exact absurd h2 (List.not_mem_nil cat)
  · obtain ⟨p, hp, hcl⟩ := h2
    have hlk := hrec p hp
    rw [hcl] at hlk
    have hmem := alistGet_mem RESOURCE_MAP p.2.type (p.2.node_class, cat) hlk
    exact List.mem_map.mpr ⟨(p.2.type, p.2.node_class, cat), hmem, rfl⟩

/-- C7: for a resource whose `depends_on` field is a list (of hashable
values, so that the Python membership test `dep in nodes` cannot raise), the
edge loop produces exactly the edges `edgesOf` and the warnings `diagsOf`:
each reference string that is a node key (equivalently, by `mem_nodeKeys`, a
key of the resource mapping) yields the edge (reference, resource id), each
other reference yields one "dependency not found" warning and is dropped
without affecting the rest; moreover each matching reference string yields
exactly one edge per occurrence (the count equation). -/
theorem c7_dependency_resolution (res : Resources) (rid : String)
    (r : ResourceRecord) (d : List (String × HV)) (deps : List HV)
    (acc : List GEdge × List Diag)
    (hc : r.config = HV.dict d)
    (hd : (alistGet d dependsOnKey).getD (HV.list []) = HV.list deps)
    (hh : ∀ dep ∈ deps, hashable dep = true)
    (hr : rid ∈ keysOf res) :
    processResourceDeps (nodeKeys res) rid r acc =
      Except.ok (acc.1 ++ edgesOf (nodeKeys res) rid deps,
        acc.2 ++ diagsOf (nodeKeys res) rid deps) ∧
    (∀ s, s ∈ keysOf res →
      List.count (GEdge.mk s rid) (edgesOf (nodeKeys res) rid deps) =
        List.countP (isStrEq s) deps) := by
  have hrk : rid ∈ nodeKeys res := (mem_nodeKeys res rid).mpr hr
  constructor
  · have hg : getDependsOn r.config = Except.ok (HV.list deps) := by
      rw [hc]
      show Except.ok ((alistGet d dependsOnKey).getD (HV.list [])) = _
      rw [hd]
    unfold processResourceDeps
    rw [hg]
    exact depsFold_exact hrk deps acc hh
  · intro s hs
    exact edgesOf_count ((mem_nodeKeys res s).mpr hs) deps

/-- C8 counterexample input: `aws_instance.web` declares `depends_on = ""`,
a value that is present and not a list. -/
def docC8 : List (String × HV) :=
  [(resourceKey, HV.list [
    HV.dict [("aws_instance",
      HV.dict [("web", HV.dict [(dependsOnKey, HV.str "")])])]])]

/-- C8 counterexample: the claim says every present non-list `depends_on`
value yields a diagnostic. On `docC8` the value is the empty string: it is
not a list, yet the pipeline completes with zero edges and an empty
diagnostics list, because the source only warns when the non-list value is
truthy (`if depends_on:` on line 172). -/
theorem c8_counterexample :
    generate_diagram_from_terraform docC8 = Except.ok
      ⟨[("aws_instance.web", ⟨"aws_instance", "web",
          HV.dict [(dependsOnKey, HV.str "")], "EC2", "Compute"⟩)],
        [("Compute", ["aws_instance.web"])], [], []⟩ := rfl

/-- C8 amended: for a resource whose `depends_on` field is present and not a
list, zero edges are produced from that field and processing continues
(`Except.ok`), but the diagnostic is emitted only when the value is truthy in
the Python sense; a falsy non-list value (empty string, 0, false, empty
mapping) is skipped silently. -/
theorem c8_nonlist_depends_on (keys : List String) (rid : String)
    (r : ResourceRecord) (d : List (String × HV)) (v : HV)
    (acc : List GEdge × List Diag)
    (hc : r.config = HV.dict d)
    (hv : (alistGet d dependsOnKey).getD (HV.list []) = v)
    (hnl : ∀ l, v ≠ HV.list l) :
    processResourceDeps keys rid r acc =
      Except.ok (acc.1,
        acc.2 ++ (if pyTruthy v then [Diag.dependsOnNotList rid] else [])) := by
  have hg : getDependsOn r.config = Except.ok v := by
    rw [hc]
    show Except.ok ((alistGet d dependsOnKey).getD (HV.list [])) = _
    rw [hv]
  unfold processResourceDeps
  rw [hg]
  cases v with
  | list l => exact absurd rfl (hnl l)
  | str s =>
    show nonListDependsOn rid acc (HV.str s) = _
    by_cases ht : pyTruthy (HV.str s) = true
    · simp [nonListDependsOn, ht]
    · simp [nonListDependsOn, ht]
  | num k =>
    show nonListDependsOn rid acc (HV.num k) = _
    by_cases ht : pyTruthy (HV.num k) = true
    · simp [nonListDependsOn, ht]
    · simp [nonListDependsOn, ht]
  | bool b =>
    show nonListDependsOn rid acc (HV.bool b) = _
    by_cases ht : pyTruthy (HV.bool b) = true
    · simp [nonListDependsOn, ht]
    · simp [nonListDependsOn, ht]
  | dict d2 =>
    show nonListDependsOn rid acc (HV.dict d2) = _
    by_cases ht : pyTruthy (HV.dict d2) = true
    · simp [nonListDependsOn, ht]
    · simp [nonListDependsOn, ht]

/-- Document of spec Scenario B: `aws_instance.web` depends on
`aws_s3_bucket.assets`. -/
def docB : List (String × HV) :=
  [(resourceKey, HV.list [
    HV.dict [("aws_instance", HV.dict [("web",
      HV.dict [(dependsOnKey, HV.list [HV.str "aws_s3_bucket.assets"])])])],
    HV.dict [("aws_s3_bucket", HV.dict [("assets", HV.dict [])])]])]

/-- Record extracted for `aws_instance.web` in `docB`. -/
def rW : ResourceRecord :=
  ⟨"aws_instance", "web",
    HV.dict [(dependsOnKey, HV.list [HV.str "aws_s3_bucket.assets"])],
    "EC2", "Compute"⟩

/-- Extraction result of `docB`. -/
def resB : Resources :=
  [("aws_instance.web", rW),
   ("aws_s3_bucket.assets", ⟨"aws_s3_bucket", "assets", HV.dict [], "S3", "Storage"⟩)]

/-- Graph generated from `docB`. -/
def gB : DependencyGraph :=
  ⟨resB,
   [("Compute", ["aws_instance.web"]), ("Storage", ["aws_s3_bucket.assets"])],
   [GEdge.mk "aws_s3_bucket.assets" "aws_instance.web"], []⟩

/-- C3 witness: on the Scenario B document the one generated edge has both
endpoints among the resource mapping's keys. -/
theorem c3_no_dangling_edges_witness :
    (GEdge.mk "aws_s3_bucket.assets" "aws_instance.web").fromId ∈
      keysOf gB.resources ∧
    (GEdge.mk "aws_s3_bucket.assets" "aws_instance.web").toId ∈
      keysOf gB.resources :=
  c3_no_dangling_edges docB gB rfl
    (GEdge.mk "aws_s3_bucket.assets" "aws_instance.web") (List.mem_cons_self _ _)

/-- C4 witness: the partition properties at the Scenario B document. -/
theorem c4_clusters_partition_witness :
    ((buildClusters resB).map Prod.fst).Nodup ∧
    (∀ cat, cat ∈ (buildClusters resB).map Prod.fst ↔
      ∃ p ∈ resB, p.2.cluster = cat) ∧
    (∀ rid ∈ keysOf resB, List.count rid (joinMembers (buildClusters resB)) = 1) ∧
    (∀ rid, rid ∉ keysOf resB →
      List.count rid (joinMembers (buildClusters resB)) = 0) :=
  c4_clusters_partition docB resB [] rfl

/-- C5 witness: id uniqueness and declaredness at the Scenario B document. -/
theorem c5_ids_unique_and_declared_witness :
    (keysOf resB).Nodup ∧
    (∀ p ∈ resB, ∃ t n cfg, (t, n, cfg) ∈ declaredTriples docB ∧
      p.1 = mkResourceId t n) :=
  c5_ids_unique_and_declared docB resB [] rfl

/-- Document of spec Scenario D: a declared type absent from the registry. -/
def docD : List (String × HV) :=
  [(resourceKey, HV.list [
    HV.dict [("unknown_widget", HV.dict [("x", HV.dict [])])]])]

/-- C6 witness: on the Scenario D document the unknown-typed declaration
produces its "no mapping" diagnostic (and extraction completed, with an empty
resource mapping). -/
theorem c6_unknown_type_filtered_witness :
    Diag.noMapping "unknown_widget" (mkResourceId "unknown_widget" "x") ∈
      [Diag.noMapping "unknown_widget" "unknown_widget.x"] :=
  ((c6_unknown_type_filtered docD).2 []
      [Diag.noMapping "unknown_widget" "unknown_widget.x"] rfl).2
    "unknown_widget" "x" (HV.dict []) (List.mem_cons_self _ _) rfl

/-- C7 witness: the per-resource dependency resolution at Scenario B's `web`
resource: the matching reference yields exactly the one edge and no warning. -/
theorem c7_dependency_resolution_witness :
    processResourceDeps (nodeKeys resB) "aws_instance.web" rW ([], []) =
      Except.ok ([GEdge.mk "aws_s3_bucket.assets" "aws_instance.web"], []) ∧
    (∀ s, s ∈ keysOf resB →
      List.count (GEdge.mk s "aws_instance.web")
          (edgesOf (nodeKeys resB) "aws_instance.web"
            [HV.str "aws_s3_bucket.assets"]) =
        List.countP (isStrEq s) [HV.str "aws_s3_bucket.assets"]) :=
  c7_dependency_resolution resB "aws_instance.web" rW
    [(dependsOnKey, HV.list [HV.str "aws_s3_bucket.assets"])]
    [HV.str "aws_s3_bucket.assets"] ([], []) rfl rfl (by decide) (by decide)

/-- Record whose `depends_on` is a truthy non-list value. -/
def rTruthy : ResourceRecord :=
  ⟨"aws_instance", "web", HV.dict [(dependsOnKey, HV.str "db")], "EC2", "Compute"⟩

/-- C8 witness: a truthy non-list `depends_on` (the string "db") yields the
warning and zero edges, and processing continues. -/
theorem c8_nonlist_depends_on_witness :
    processResourceDeps [] "aws_instance.web" rTruthy ([], []) =
      Except.ok ([], [Diag.dependsOnNotList "aws_instance.web"]) :=
  c8_nonlist_depends_on [] "aws_instance.web" rTruthy
    [(dependsOnKey, HV.str "db")] (HV.str "db") ([], []) rfl rfl
    (fun l h => HV.noConfusion h)

/-- C10 witness: category consistency at the Scenario B document. -/
theorem c10_category_consistency_witness :
    (∀ p ∈ resB, alistGet RESOURCE_MAP p.2.type =
      some (p.2.node_class, p.2.cluster)) ∧
    (∀ cat ∈ (buildClusters resB).map Prod.fst,
      cat ∈ RESOURCE_MAP.map (fun e => e.2.2)) :=
  c10_category_consistency docB resB [] rfl
